import Mathlib

/-!
Shallow embedding of the personalized recommendation and learning-path
engine of the skillstudio backend
(`backend/app/services/ai_recommendations.py`,
`backend/app/services/recommendation_engine.py`,
`backend/app/services/skill_assessment.py`,
`backend/app/services/adaptive_assessment.py`).

Python dictionaries are modelled as association lists (first binding wins on
lookup, in-place update on assignment), Python sets of strings as
`Finset String`, floats as rationals, and `round` as round-half-to-even on
rationals.  Nullable numeric columns are modelled with `Option`; the code's
truthiness tests (`or` defaults, `if x:`) are translated case by case.
-/

namespace SkillStudio

/-! ## Python primitives -/

/-- `round` to an integer, Python style: round half to even. -/
def roundHalfEven (q : ℚ) : ℤ :=
  let f : ℤ := ⌊q⌋
  let frac : ℚ := q - f
  if frac < 1/2 then f
  else if 1/2 < frac then f + 1
  else if f % 2 = 0 then f else f + 1

/-- Python `round(q, 1)`. -/
def pyRound1 (q : ℚ) : ℚ := (roundHalfEven (q * 10) : ℚ) / 10

/-- Python `round(q, 2)`. -/
def pyRound2 (q : ℚ) : ℚ := (roundHalfEven (q * 100) : ℚ) / 100

/-- Lookup in a Python dict modelled as an association list:
the first binding for the key, if any (`d.get(k)`). -/
def dictGet (d : List (String × ℚ)) (k : String) : Option ℚ :=
  (d.find? (fun p => p.1 = k)).map (·.2)

/-- `d.get(k, 0)`. -/
def dictGetD (d : List (String × ℚ)) (k : String) : ℚ :=
  (dictGet d k).getD 0

/-- Python dict assignment `d[k] = v`: replace the first binding for `k`,
or append a new binding at the end. -/
def dictSet : List (String × ℚ) → String → ℚ → List (String × ℚ)
  | [], k, v => [(k, v)]
  | (k₀, v₀) :: rest, k, v =>
      if k₀ = k then (k, v) :: rest else (k₀, v₀) :: dictSet rest k v

/-- Does `needle` occur at the head of `hay`? (helper for substring tests) -/
def matchesAt : List Char → List Char → Bool
  | [], _ => true
  | _ :: _, [] => false
  | a :: as, b :: bs => a = b && matchesAt as bs

/-- Python `needle in hay` for strings, on character lists. -/
def findSub : List Char → List Char → Bool
  | needle, [] => needle.isEmpty
  | needle, b :: bs => matchesAt needle (b :: bs) || findSub needle bs

/-- Python `s.split()` restricted to spaces: split on runs of spaces,
dropping empty pieces (accumulator holds the current word reversed). -/
def splitWords : List Char → List Char → List String
  | acc, [] => if acc.isEmpty then [] else [String.mk acc.reverse]
  | acc, c :: rest =>
      if c = ' ' then
        if acc.isEmpty then splitWords [] rest
        else String.mk acc.reverse :: splitWords [] rest
      else splitWords (c :: acc) rest

/-- Python `needle in hay` on strings. -/
def strHas (hay needle : String) : Bool :=
  findSub needle.toList hay.toList

/-! ## Data model

`Course` mirrors the columns of `app.models.course.Course` that the engine
reads.  `skills_taught` and `prerequisites` are JSONB lists that the engine
always wraps in `set(...)`, so they are modelled as finite sets directly.
`estimated_duration_hours` is nullable; `NULL` and `0` are indistinguishable
everywhere the engine uses it (`or 0` and truthiness tests), so it is a plain
rational with `0` standing for `NULL`.  `total_enrollments` is a
non-negative count (`or 0` collapses `NULL` to `0`). -/

structure Course where
  id : ℕ
  title : String
  description : String
  difficulty_level : String
  skills_taught : Finset String
  prerequisites : Finset String
  estimated_duration_hours : ℚ
  total_enrollments : ℕ
deriving DecidableEq

/-- A learning goal (`app.models.learning.LearningGoal`): the fields the
scorer reads.  `target_role` is nullable; Python's `if goal.target_role:`
is false for `None` and for the empty string. -/
structure Goal where
  target_skills : Finset String
  target_role : Option String
deriving DecidableEq

/-- The user context assembled by
`RecommendationEngine._get_user_context`: `current_skills` is the profile's
`skill_levels` dict (only its key set is read by the scorer),
`target_skills` is the deduplicated union of the goals' target skills. -/
structure UserContext where
  current_skills : List (String × ℚ)
  target_skills : Finset String
  learning_goals : List Goal
  preferred_difficulty : String
deriving DecidableEq

/-! ## CourseScorer
(`ai_recommendations.RecommendationEngine._calculate_recommendation_score`) -/

/-- `difficulty_map.get(level, 2)` with
`{'BEGINNER': 1, 'INTERMEDIATE': 2, 'ADVANCED': 3, 'EXPERT': 4}`. -/
def difficultyOrd (s : String) : ℤ :=
  if s = "BEGINNER" then 1
  else if s = "INTERMEDIATE" then 2
  else if s = "ADVANCED" then 3
  else if s = "EXPERT" then 4
  else 2

/-- Factor 1, skill match (weight 40): Jaccard overlap of the course's
taught skills with the context's target skills, `0` if either is empty. -/
def skillMatchScore (course : Course) (ctx : UserContext) : ℚ :=
  if ctx.target_skills ≠ ∅ then
    let course_skills := course.skills_taught
    let target_skills := ctx.target_skills
    if course_skills ≠ ∅ ∧ target_skills ≠ ∅ then
      let overlap := (course_skills ∩ target_skills).card
      let union := (course_skills ∪ target_skills).card
      if 0 < union then (overlap : ℚ) / (union : ℚ) * 40 else 0
    else 0
  else 0

/-- Factor 2, difficulty match (weight 20). -/
def difficultyMatchScore (course : Course) (ctx : UserContext) : ℚ :=
  let course_level := difficultyOrd course.difficulty_level
  let preferred_level := difficultyOrd ctx.preferred_difficulty
  let diff : ℕ := (course_level - preferred_level).natAbs
  if diff = 0 then 20
  else if diff = 1 ∧ preferred_level < course_level then 15
  else if diff = 1 then 10
  else max 0 (20 - (diff : ℚ) * 5)

/-- The role-keyword test inside factor 3: `goal.target_role` is truthy and
one of its lowercased space-separated words occurs in the lowercased
`"{title} {description}"` text of the course. -/
def roleMentioned (goal : Goal) (course : Course) : Bool :=
  match goal.target_role with
  | none => false
  | some role =>
      if role = "" then false
      else
        let course_text := (course.title ++ " " ++ course.description).toLower
        (splitWords [] role.toLower.toList).any (fun kw => strHas course_text kw)

/-- Factor 3, learning-goal alignment (weight 25): `+15` per goal whose
target skills overlap the course's, `+10` per goal whose role keywords
appear in the course text, capped at `25`. -/
def goalAlignmentScore (course : Course) (ctx : UserContext) : ℚ :=
  let raw := ctx.learning_goals.foldl
    (fun acc goal =>
      acc + (if (goal.target_skills ∩ course.skills_taught) ≠ ∅ then 15 else 0)
          + (if roleMentioned goal course then 10 else 0))
    0
  min raw 25

/-- Factor 4, popularity (weight 10): `min(enrollments / 100 * 10, 10)`. -/
def popularityScore (course : Course) : ℚ :=
  min ((course.total_enrollments : ℚ) / 100 * 10) 10

/-- Factor 5, prerequisite readiness (weight 5): `5` with no prerequisites,
else the met fraction of the prerequisite set times `5`. -/
def prerequisiteReadyScore (course : Course) (ctx : UserContext) : ℚ :=
  let prereqs := course.prerequisites
  let current_skills := (ctx.current_skills.map (·.1)).toFinset
  if prereqs = ∅ then 5
  else
    let met := (prereqs ∩ current_skills).card
    let total := prereqs.card
    if 0 < total then (met : ℚ) / (total : ℚ) * 5 else 0

/-- The five sub-scores plus the total, as returned by
`_calculate_recommendation_score`. -/
structure Scores where
  skill_match : ℚ
  difficulty_match : ℚ
  goal_alignment : ℚ
  popularity : ℚ
  prerequisite_ready : ℚ
  total : ℚ
deriving DecidableEq

/-- `RecommendationEngine._calculate_recommendation_score`: the five factor
scores, with `total = sum(scores.values())` taken before the `total` key is
inserted. -/
def calculateRecommendationScore (course : Course) (ctx : UserContext) : Scores :=
  let sm := skillMatchScore course ctx
  let dm := difficultyMatchScore course ctx
  let ga := goalAlignmentScore course ctx
  let pop := popularityScore course
  let pr := prerequisiteReadyScore course ctx
  ⟨sm, dm, ga, pop, pr, sm + dm + ga + pop + pr⟩

/-! ## PathPlanner
(`ai_recommendations.LearningPathGenerator.generate_learning_path`) -/

/-- Is `course` a candidate in the greedy loop?  The code `continue`s when
the course was already chosen and when it has prerequisites that are not a
subset of the learned skills. -/
def eligible (picked : List Course) (learned : Finset String) (course : Course) : Prop :=
  course ∉ picked ∧ (course.prerequisites = ∅ ∨ course.prerequisites ⊆ learned)

instance (picked : List Course) (learned : Finset String) (course : Course) :
    Decidable (eligible picked learned course) := by
  unfold eligible; infer_instance

/-- The greedy local score of a candidate: gap skills taught, a 50% bonus
for them, and a `2 / duration` bonus when the duration is truthy. -/
def localScore (gaps : Finset String) (course : Course) : ℚ :=
  let new_skills := course.skills_taught ∩ gaps
  let base : ℚ := (new_skills.card : ℚ) + (new_skills.card : ℚ) * (1/2)
  if course.estimated_duration_hours ≠ 0 then
    base + 1 / course.estimated_duration_hours * 2
  else base

/-- The `for course in all_courses` scan: keep the best (course, score)
pair, replacing it only on a strictly greater score (`score > best_score`,
with `best_score` starting at `0`). -/
def selectGo (picked : List Course) (learned gaps : Finset String) :
    List Course → Option Course × ℚ → Option Course × ℚ
  | [], best => best
  | course :: rest, best =>
      if eligible picked learned course then
        if best.2 < localScore gaps course then
          selectGo picked learned gaps rest (some course, localScore gaps course)
        else selectGo picked learned gaps rest best
      else selectGo picked learned gaps rest best

/-- One iteration's choice of `best_course` (`None` when no candidate beats
the initial `best_score = 0`). -/
def selectCourse (allCourses picked : List Course) (learned gaps : Finset String) :
    Option Course :=
  (selectGo picked learned gaps allCourses (none, 0)).1

/-- One entry of `path_courses`: the chosen course, the gap skills it was
chosen for, and its 1-based sequence number. -/
structure PathStep where
  sequence : ℕ
  course : Course
  skills_gained : Finset String
deriving DecidableEq

/-- The greedy loop (`while skill_gaps and iteration < max_iterations`),
with the iteration cap as fuel (the code uses `max_iterations = 20`).
Returns the accumulated path and the final learned-skill set. -/
def buildPath (allCourses : List Course) (targetSkills : Finset String) :
    ℕ → List PathStep → Finset String → Finset String → List PathStep × Finset String
  | 0, path, learned, _ => (path, learned)
  | fuel + 1, path, learned, gaps =>
      if gaps = ∅ then (path, learned)
      else
        match selectCourse allCourses (path.map (·.course)) learned gaps with
        | none => (path, learned)
        | some best =>
            let step : PathStep :=
              ⟨path.length + 1, best, best.skills_taught ∩ gaps⟩
            let learned := learned ∪ best.skills_taught
            buildPath allCourses targetSkills fuel (path ++ [step]) learned
              (targetSkills \ learned)

/-- `profile.study_hours_per_week or 5`: `NULL` and `0` fall back to `5`
(the column is a nullable integer). -/
def effectiveStudyHours (sh : Option ℤ) : ℤ :=
  match sh with
  | none => 5
  | some n => if n = 0 then 5 else n

/-- The structured result of `generate_learning_path` (the fields with
algorithmic content). -/
structure PathResult where
  steps : List PathStep
  total_hours : ℚ
  estimated_weeks : ℤ
  study_hours_per_week : ℤ
deriving DecidableEq

/-- `LearningPathGenerator.generate_learning_path`, given the loaded
snapshots: the profile's skill keys, the goal's target skills, the
profile's nullable `study_hours_per_week` and the published catalog.
`estimated_weeks = ceil(total_hours / study_hours) if study_hours > 0
else 0`. -/
def generateLearningPath (currentSkills targetSkills : Finset String)
    (studyHours : Option ℤ) (allCourses : List Course) : PathResult :=
  let state := buildPath allCourses targetSkills 20 [] currentSkills
    (targetSkills \ currentSkills)
  let total_hours : ℚ :=
    (state.1.map (fun st => st.course.estimated_duration_hours)).sum
  let sh := effectiveStudyHours studyHours
  let estimated_weeks : ℤ := if 0 < sh then ⌈total_hours / (sh : ℚ)⌉ else 0
  ⟨state.1, total_hours, estimated_weeks, sh⟩

/-! The second pace computation, in
`recommendation_engine.RecommendationEngine.generate_learning_path`
(lines 150–153): the fallback constant is `10` and the `ceil` division is
unguarded. -/

/-- `study_hours_per_week = profile.study_hours_per_week or 10`. -/
def engineStudyHours (sh : Option ℤ) : ℤ :=
  match sh with
  | none => 10
  | some n => if n = 0 then 10 else n

/-- `estimated_weeks = math.ceil(total_hours / study_hours_per_week)`. -/
def engineEstimatedWeeks (total_hours : ℚ) (sh : Option ℤ) : ℤ :=
  ⌈total_hours / (engineStudyHours sh : ℚ)⌉

/-! ## SkillGapAnalyzer
(`ai_recommendations.SkillGapAnalyzer.analyze_skill_gaps`) -/

/-- One entry of the `skill_gaps` list. -/
structure SkillGap where
  skill : String
  current_level : ℚ
  gap_size : String
  priority : String
deriving DecidableEq

/-- The gap record built for one target skill from the profile's
`skill_levels` dict (`current_skills.get(target_skill, 0)`). -/
def buildGap (current_skills : List (String × ℚ)) (target_skill : String) : SkillGap :=
  let current_level := dictGetD current_skills target_skill
  { skill := target_skill
    current_level := current_level
    gap_size :=
      if current_level < 3 then "large"
      else if current_level < 7 then "medium" else "small"
    priority :=
      if current_level < 3 then "high"
      else if current_level < 7 then "medium" else "low" }

/-- The sort key `{'high': 0, 'medium': 1, 'low': 2}[priority]`
(the lookup cannot miss on constructed gaps; `3` stands for the
unreachable `KeyError` case). -/
def priorityRank (g : SkillGap) : ℕ :=
  if g.priority = "high" then 0
  else if g.priority = "medium" then 1
  else if g.priority = "low" then 2
  else 3

/-- `sorted(skill_gaps, key=lambda x: rank[x['priority']])`.  CPython's
`sorted` is stable, and on a key with values in `{0, 1, 2}` a stable sort is
exactly the concatenation of the three key-classes in input order. -/
def sortGapsStable (gaps : List SkillGap) : List SkillGap :=
  gaps.filter (fun g => priorityRank g = 0)
    ++ gaps.filter (fun g => priorityRank g = 1)
    ++ gaps.filter (fun g => priorityRank g = 2)

/-- The `skill_gaps` field of `SkillGapAnalyzer.analyze_skill_gaps`:
one gap per aggregated target skill, sorted by priority rank.
`targetSkills` is the aggregated target-skill set in its iteration order. -/
def analyzeSkillGaps (current_skills : List (String × ℚ))
    (targetSkills : List String) : List SkillGap :=
  sortGapsStable (targetSkills.map (buildGap current_skills))

/-! ## SkillAssessor (`skill_assessment.SkillAssessor`) -/

/-- `SkillAssessor.calculate_skill_from_history`, applied to the extracted
per-skill accuracy samples (most recent first, at most 10 by the query
`LIMIT`): `None` with no samples, else
`round(weighted_sum / weight_sum * 10, 1)` with weight `1/(i+1)` for the
`i`-th sample. -/
def calculateSkillFromHistory (skill_scores : List ℚ) : Option ℚ :=
  if skill_scores = [] then none
  else
    let weighted_sum : ℚ :=
      (skill_scores.enum.map (fun p => p.2 * (1 / (p.1 + 1 : ℚ)))).sum
    let weight_sum : ℚ :=
      (skill_scores.enum.map (fun p => (1 : ℚ) / (p.1 + 1 : ℚ))).sum
    some (pyRound1 (weighted_sum / weight_sum * 10))

/-- The merge branch of `SkillAssessor._update_learner_profile`: for each
newly computed `(skill, level)`,
`existing[skill] = max(existing.get(skill, 0), level)`, performed in order
on the existing profile dict. -/
def mergeSkillLevels (existing updates : List (String × ℚ)) : List (String × ℚ) :=
  updates.foldl
    (fun acc p => dictSet acc p.1 (max (dictGetD acc p.1) p.2))
    existing

/-! ## AdaptiveAssessmentEngine
(`adaptive_assessment.AdaptiveAssessmentEngine`) -/

/-- The columns of `AssessmentQuestion` the adaptive engine reads.
`points` is a nullable integer column. -/
structure Question where
  id : ℕ
  difficulty_level : String
  points : Option ℕ
deriving DecidableEq

/-- One entry of `previous_answers` / `answers`: the engine reads
`ans['question_id']` and `ans.get('is_correct', False)`. -/
structure AnswerRec where
  question_id : ℕ
  is_correct : Bool
deriving DecidableEq

/-- `accuracy = correct_count / total_answered if total_answered > 0 else 0`. -/
def rollingAccuracy (previous : List AnswerRec) : ℚ :=
  if 0 < previous.length then
    ((previous.filter (·.is_correct)).length : ℚ) / (previous.length : ℚ)
  else 0

/-- The difficulty targeted from the rolling accuracy. -/
def targetDifficulty (accuracy : ℚ) : String :=
  if 8/10 ≤ accuracy then "HARD"
  else if 1/2 ≤ accuracy then "MEDIUM"
  else "EASY"

/-- The unanswered questions, in catalog order. -/
def unansweredOf (allQuestions : List Question) (previous : List AnswerRec) :
    List Question :=
  allQuestions.filter (fun q => !(previous.map (·.question_id)).contains q.id)

/-- `random.choice(l)` on a non-empty list, with the random draw made
explicit as an index: the draw `r` picks element `r % l.length`. -/
def randChoice (r : ℕ) (l : List Question) : Question :=
  l.getD (r % l.length) ⟨0, "", none⟩

/-- `AdaptiveAssessmentEngine.get_next_question`, given the loaded question
catalog (the assessment-missing and empty-catalog early returns are the
`none` cases).  `r` is the value drawn by `random.choice`:
`medium_questions` and `matching_difficulty` are spelled out where the
source binds them to locals. -/
def getNextQuestion (allQuestions : List Question) (previous : List AnswerRec)
    (r : ℕ) : Option Question :=
  if allQuestions = [] then none
  else if previous = [] then
    if allQuestions.filter (fun q => q.difficulty_level = "MEDIUM") ≠ [] then
      some (randChoice r (allQuestions.filter (fun q => q.difficulty_level = "MEDIUM")))
    else allQuestions.head?
  else if unansweredOf allQuestions previous = [] then none
  else if (unansweredOf allQuestions previous).filter
      (fun q => q.difficulty_level = targetDifficulty (rollingAccuracy previous)) ≠ [] then
    some (randChoice r ((unansweredOf allQuestions previous).filter
      (fun q => q.difficulty_level = targetDifficulty (rollingAccuracy previous))))
  else (unansweredOf allQuestions previous).head?

/-- The difficulty multipliers of `calculate_adaptive_score`
(`.get(level, 1.0)` on `{'EASY': 1.0, 'MEDIUM': 1.5, 'HARD': 2.0}`). -/
def difficultyMultiplier (level : String) : ℚ :=
  if level = "EASY" then 1
  else if level = "MEDIUM" then 3/2
  else if level = "HARD" then 2
  else 1

/-- `base_points = question.points or 10`: `NULL` and `0` fall back to 10. -/
def basePoints (q : Question) : ℕ :=
  match q.points with
  | none => 10
  | some n => if n = 0 then 10 else n

/-- The dict `{str(q.id): q for q in questions}`: on duplicate ids the last
binding wins. -/
def questionById (questions : List Question) (qid : ℕ) : Option Question :=
  questions.reverse.find? (fun q => q.id = qid)

/-- The result dict of `calculate_adaptive_score` (`int()` truncates the
non-negative weighted sums; the percentage is rounded to 2 digits). -/
structure AdaptiveScore where
  points_earned : ℤ
  points_possible : ℤ
  percentage : ℚ
deriving DecidableEq

/-- The accumulation loop of `calculate_adaptive_score` over the answer
list: `(total_points_earned, max_possible_points)`. -/
def adaptivePointsLoop (questions : List Question) (answers : List AnswerRec) :
    ℚ × ℚ :=
  answers.foldl
    (fun acc ans =>
      match questionById questions ans.question_id with
      | none => acc
      | some q =>
          let weighted := (basePoints q : ℚ) * difficultyMultiplier q.difficulty_level
          (acc.1 + (if ans.is_correct then weighted else 0), acc.2 + weighted))
    (0, 0)

/-- `AdaptiveAssessmentEngine.calculate_adaptive_score`, given the loaded
question catalog. -/
def calculateAdaptiveScore (answers : List AnswerRec)
    (questions : List Question) : AdaptiveScore :=
  let pts := adaptivePointsLoop questions answers
  let percentage : ℚ := if 0 < pts.2 then pts.1 / pts.2 * 100 else 0
  ⟨⌊pts.1⌋, ⌊pts.2⌋, pyRound2 percentage⟩

/-! ## Spec-side definitions

Definitions that transcribe the specification's words (not the source),
used only to compare claimed behaviour against the embedded code. -/

/-- The ordering the spec claims for the gap report: ascending priority
rank, ties broken by skill name. -/
def gapsSortedAsSpecified (l : List SkillGap) : Prop :=
  l.Pairwise (fun g h =>
    priorityRank g < priorityRank h ∨
      (priorityRank g = priorityRank h ∧ ¬ h.skill < g.skill))

instance (l : List SkillGap) : Decidable (gapsSortedAsSpecified l) := by
  unfold gapsSortedAsSpecified; infer_instance

/-- The percentage the spec's words prescribe for `calculate_adaptive_score`:
each answered question's points (as stored, no default) times the difficulty
weight, summed into earned (correct only) and possible (all answered), then
`earned / possible * 100`, or `0` when `possible == 0`. -/
def specAdaptivePercentage (answers : List AnswerRec)
    (questions : List Question) : ℚ :=
  let weightOf : AnswerRec → ℚ := fun a =>
    match questionById questions a.question_id with
    | none => 0
    | some q => ((q.points.getD 0 : ℕ) : ℚ) * difficultyMultiplier q.difficulty_level
  let earned := ((answers.filter (·.is_correct)).map weightOf).sum
  let possible := (answers.map weightOf).sum
  if possible = 0 then 0 else earned / possible * 100

/-- The weighted points one answer record contributes to
`max_possible_points` (0 when its question id is not in the catalog):
`(question.points or 10) * difficulty_multiplier`. -/
def answerWeight (questions : List Question) (ans : AnswerRec) : ℚ :=
  match questionById questions ans.question_id with
  | none => 0
  | some q => (basePoints q : ℚ) * difficultyMultiplier q.difficulty_level

/-! ## General lemmas -/

/-- The skills already learned after a list of path steps, starting from
the learner's initial skill set. -/
def learnedAfter (current : Finset String) (steps : List PathStep) : Finset String :=
  steps.foldl (fun s st => s ∪ st.course.skills_taught) current

lemma learnedAfter_append (current : Finset String) (steps : List PathStep)
    (st : PathStep) :
    learnedAfter current (steps ++ [st])
      = learnedAfter current steps ∪ st.course.skills_taught := by
  simp [learnedAfter, List.foldl_append]

lemma skillMatchScore_nonneg (course : Course) (ctx : UserContext) :
    0 ≤ skillMatchScore course ctx := by
  unfold skillMatchScore
  dsimp only
  split_ifs <;> positivity

lemma skillMatchScore_le (course : Course) (ctx : UserContext) :
    skillMatchScore course ctx ≤ 40 := by
  unfold skillMatchScore
  dsimp only
  split_ifs with h1 h2 h3
  · have hle : ((course.skills_taught ∩ ctx.target_skills).card : ℚ)
        ≤ ((course.skills_taught ∪ ctx.target_skills).card : ℚ) := by
      exact_mod_cast Finset.card_le_card (Finset.inter_subset_union)
    have hone : ((course.skills_taught ∩ ctx.target_skills).card : ℚ)
        / ((course.skills_taught ∪ ctx.target_skills).card : ℚ) ≤ 1 :=
      (div_le_one (by exact_mod_cast h3)).mpr hle
    nlinarith
  · norm_num
  · norm_num
  · norm_num

lemma difficultyMatchScore_nonneg (course : Course) (ctx : UserContext) :
    0 ≤ difficultyMatchScore course ctx := by
  unfold difficultyMatchScore
  dsimp only
  split_ifs <;> norm_num

lemma difficultyMatchScore_le (course : Course) (ctx : UserContext) :
    difficultyMatchScore course ctx ≤ 20 := by
  unfold difficultyMatchScore
  dsimp only
  split_ifs <;> norm_num

lemma goalAlignment_foldl_le (course : Course) :
    ∀ (goals : List Goal) (a : ℚ),
      a ≤ goals.foldl
        (fun acc goal =>
          acc + (if (goal.target_skills ∩ course.skills_taught) ≠ ∅ then 15 else 0)
              + (if roleMentioned goal course then 10 else 0)) a := by
  intro goals
  induction goals with
  | nil => intro a; simp
  | cons g gs ih =>
      intro a
      refine le_trans ?_ (ih _)
      dsimp only
      have h1 : (0:ℚ) ≤ (if (g.target_skills ∩ course.skills_taught) ≠ ∅ then (15:ℚ) else 0) := by
        split <;> norm_num
      have h2 : (0:ℚ) ≤ (if roleMentioned g course then (10:ℚ) else 0) := by
        split <;> norm_num
      linarith

lemma goalAlignmentScore_nonneg (course : Course) (ctx : UserContext) :
    0 ≤ goalAlignmentScore course ctx := by
  unfold goalAlignmentScore
  exact le_min (goalAlignment_foldl_le course ctx.learning_goals 0) (by norm_num)

lemma goalAlignmentScore_le (course : Course) (ctx : UserContext) :
    goalAlignmentScore course ctx ≤ 25 :=
  min_le_right _ _

lemma popularityScore_nonneg (course : Course) : 0 ≤ popularityScore course :=
  le_min (by positivity) (by norm_num)

lemma popularityScore_le (course : Course) : popularityScore course ≤ 10 :=
  min_le_right _ _

lemma prerequisiteReadyScore_nonneg (course : Course) (ctx : UserContext) :
    0 ≤ prerequisiteReadyScore course ctx := by
  unfold prerequisiteReadyScore
  dsimp only
  split_ifs <;> positivity

lemma prerequisiteReadyScore_le (course : Course) (ctx : UserContext) :
    prerequisiteReadyScore course ctx ≤ 5 := by
  unfold prerequisiteReadyScore
  dsimp only
  split_ifs with h1 hpos <;> try norm_num
  have hle : ((course.prerequisites ∩ (ctx.current_skills.map (·.1)).toFinset).card : ℚ)
      ≤ (course.prerequisites.card : ℚ) := by
    exact_mod_cast Finset.card_le_card (Finset.inter_subset_left)
  have h1 : ((course.prerequisites ∩ (ctx.current_skills.map (·.1)).toFinset).card : ℚ)
      / (course.prerequisites.card : ℚ) ≤ 1 :=
    (div_le_one (by exact_mod_cast hpos)).mpr hle
  nlinarith

/-- Characterization of the greedy scan `selectGo`: either the accumulator
survives and no eligible course beats its score, or the result is the first
eligible course whose score strictly exceeds both the accumulator and every
eligible course before it, and is not exceeded by any eligible course after
it. -/
lemma selectGo_spec (picked : List Course) (learned gaps : Finset String) :
    ∀ (l : List Course) (b : Option Course × ℚ),
      (selectGo picked learned gaps l b = b ∧
        ∀ d ∈ l, eligible picked learned d → localScore gaps d ≤ b.2) ∨
      (∃ l₁ c l₂, l = l₁ ++ c :: l₂ ∧ eligible picked learned c ∧
        selectGo picked learned gaps l b = (some c, localScore gaps c) ∧
        b.2 < localScore gaps c ∧
        (∀ d ∈ l₁, eligible picked learned d → localScore gaps d < localScore gaps c) ∧
        (∀ d ∈ l₂, eligible picked learned d → localScore gaps d ≤ localScore gaps c)) := by
  intro l
  induction l with
  | nil =>
      intro b
      left
      exact ⟨rfl, fun d hd => absurd hd (List.not_mem_nil d)⟩
  | cons x rest ih =>
      intro b
      by_cases hx : eligible picked learned x
      · by_cases hgt : b.2 < localScore gaps x
        · have hrec : selectGo picked learned gaps (x :: rest) b
              = selectGo picked learned gaps rest (some x, localScore gaps x) := by
            simp [selectGo, hx, hgt]
          rcases ih (some x, localScore gaps x) with ⟨heq, hall⟩ |
            ⟨l₁, c, l₂, hsplit, hc, heq, hlt, hbefore, hafter⟩
          · right
            refine ⟨[], x, rest, by simp, hx, by rw [hrec, heq], hgt, ?_, ?_⟩
            · intro d hd; cases hd
            · intro d hd hd₂; simpa using hall d hd hd₂
          · right
            have hlt' : localScore gaps x < localScore gaps c := by simpa using hlt
            refine ⟨x :: l₁, c, l₂, by simp [hsplit], hc, by rw [hrec, heq],
              lt_trans hgt hlt', ?_, hafter⟩
            intro d hd hd₂
            rcases List.mem_cons.mp hd with h | h
            · subst h; exact hlt'
            · exact hbefore d h hd₂
        · have hrec : selectGo picked learned gaps (x :: rest) b
              = selectGo picked learned gaps rest b := by
            simp [selectGo, hx, hgt]
          rcases ih b with ⟨heq, hall⟩ |
            ⟨l₁, c, l₂, hsplit, hc, heq, hlt, hbefore, hafter⟩
          · left
            refine ⟨by rw [hrec, heq], ?_⟩
            intro d hd hd₂
            rcases List.mem_cons.mp hd with h | h
            · subst h; exact le_of_not_lt hgt
            · exact hall d h hd₂
          · right
            refine ⟨x :: l₁, c, l₂, by simp [hsplit], hc, by rw [hrec, heq], hlt, ?_, hafter⟩
            intro d hd hd₂
            rcases List.mem_cons.mp hd with h | h
            · subst h; exact lt_of_le_of_lt (le_of_not_lt hgt) hlt
            · exact hbefore d h hd₂
      · have hrec : selectGo picked learned gaps (x :: rest) b
            = selectGo picked learned gaps rest b := by
          simp [selectGo, hx]
        rcases ih b with ⟨heq, hall⟩ |
          ⟨l₁, c, l₂, hsplit, hc, heq, hlt, hbefore, hafter⟩
        · left
          refine ⟨by rw [hrec, heq], ?_⟩
          intro d hd hd₂
          rcases List.mem_cons.mp hd with h | h
          · subst h; exact absurd hd₂ hx
          · exact hall d h hd₂
        · right
          refine ⟨x :: l₁, c, l₂, by simp [hsplit], hc, by rw [hrec, heq], hlt, ?_, hafter⟩
          intro d hd hd₂
          rcases List.mem_cons.mp hd with h | h
          · subst h; exact absurd hd₂ hx
          · exact hbefore d h hd₂

/-- Specialization to `selectCourse`: a selected course is the first
eligible candidate attaining the strictly-positive maximum local score. -/
lemma selectCourse_spec {allCourses picked : List Course}
    {learned gaps : Finset String} {c : Course}
    (h : selectCourse allCourses picked learned gaps = some c) :
    ∃ l₁ l₂, allCourses = l₁ ++ c :: l₂ ∧ eligible picked learned c ∧
      0 < localScore gaps c ∧
      (∀ d ∈ l₁, eligible picked learned d → localScore gaps d < localScore gaps c) ∧
      (∀ d ∈ l₂, eligible picked learned d → localScore gaps d ≤ localScore gaps c) := by
  unfold selectCourse at h
  rcases selectGo_spec picked learned gaps allCourses (none, 0) with ⟨heq, _⟩ |
    ⟨l₁, c₀, l₂, hsplit, hc, heq, hlt, hbefore, hafter⟩
  · rw [heq] at h; cases h
  · rw [heq] at h
    have hcc : c₀ = c := by exact Option.some_injective _ h
    subst hcc
    exact ⟨l₁, l₂, hsplit, hc, hlt, hbefore, hafter⟩

/-- Membership and eligibility of a selected course. -/
lemma selectCourse_mem {allCourses picked : List Course}
    {learned gaps : Finset String} {c : Course}
    (h : selectCourse allCourses picked learned gaps = some c) :
    c ∈ allCourses ∧ eligible picked learned c := by
  rcases selectCourse_spec h with ⟨l₁, l₂, hsplit, hc, -, -, -⟩
  exact ⟨by rw [hsplit]; simp, hc⟩

/-- Unfolding equation for the successful step of the greedy loop. -/
lemma buildPath_succ_some {allCourses : List Course} {target : Finset String}
    {fuel : ℕ} {path : List PathStep} {learned gaps : Finset String} {c : Course}
    (hg : gaps ≠ ∅)
    (hsel : selectCourse allCourses (path.map (·.course)) learned gaps = some c) :
    buildPath allCourses target (fuel + 1) path learned gaps
      = buildPath allCourses target fuel
          (path ++ [⟨path.length + 1, c, c.skills_taught ∩ gaps⟩])
          (learned ∪ c.skills_taught)
          (target \ (learned ∪ c.skills_taught)) := by
  simp [buildPath, hg, hsel]

/-- The greedy loop preserves the path invariants: distinct course values
drawn from the catalog, prerequisites covered by the initial skills plus the
skills of strictly earlier steps, and sequence numbers `1, 2, …`. -/
lemma buildPath_invariant (allCourses : List Course) (target cur : Finset String) :
    ∀ (fuel : ℕ) (path : List PathStep) (learned gaps : Finset String),
      (path.map (·.course)).Nodup →
      (∀ st ∈ path, st.course ∈ allCourses) →
      learned = learnedAfter cur path →
      (∀ pre st suf, path = pre ++ st :: suf →
          st.course.prerequisites ⊆ learnedAfter cur pre) →
      path.map (·.sequence) = List.range' 1 path.length →
      ((buildPath allCourses target fuel path learned gaps).1.map (·.course)).Nodup ∧
      (∀ st ∈ (buildPath allCourses target fuel path learned gaps).1,
          st.course ∈ allCourses) ∧
      (∀ pre st suf,
          (buildPath allCourses target fuel path learned gaps).1 = pre ++ st :: suf →
          st.course.prerequisites ⊆ learnedAfter cur pre) ∧
      (buildPath allCourses target fuel path learned gaps).1.map (·.sequence)
        = List.range' 1 (buildPath allCourses target fuel path learned gaps).1.length := by
  intro fuel
  induction fuel with
  | zero =>
      intro path learned gaps h1 h2 _h3 h4 h5
      exact ⟨h1, h2, h4, h5⟩
  | succ n ih =>
      intro path learned gaps h1 h2 h3 h4 h5
      by_cases hg : gaps = ∅
      · have heq : buildPath allCourses target (n + 1) path learned gaps
            = (path, learned) := by simp [buildPath, hg]
        rw [heq]
        exact ⟨h1, h2, h4, h5⟩
      · cases hsel : selectCourse allCourses (path.map (·.course)) learned gaps with
        | none =>
            have heq : buildPath allCourses target (n + 1) path learned gaps
                = (path, learned) := by simp [buildPath, hg, hsel]
            rw [heq]
            exact ⟨h1, h2, h4, h5⟩
        | some c =>
            obtain ⟨hmem, hnotin, hprereq⟩ :
                c ∈ allCourses ∧ c ∉ path.map (·.course) ∧
                  (c.prerequisites = ∅ ∨ c.prerequisites ⊆ learned) := by
              have h := selectCourse_mem hsel
              exact ⟨h.1, h.2.1, h.2.2⟩
            rw [buildPath_succ_some hg hsel]
            set step : PathStep := ⟨path.length + 1, c, c.skills_taught ∩ gaps⟩ with hstep
            apply ih
            · rw [List.map_append]
              rw [List.nodup_append]
              refine ⟨h1, by simp, ?_⟩
              intro a ha
              simp only [hstep, List.map_cons, List.map_nil, List.mem_singleton]
              intro hac
              subst hac
              exact hnotin ha
            · intro st hst
              rcases List.mem_append.mp hst with h | h
              · exact h2 st h
              · rcases List.mem_singleton.mp h with rfl
                exact hmem
            · rw [learnedAfter_append, h3]
            · intro pre st suf hsplit
              rcases List.append_eq_append_iff.mp hsplit with
                ⟨a₁, hpre, hrest⟩ | ⟨c₁, hpath, hrest⟩
              · cases a₁ with
                | nil =>
                    simp only [List.nil_append] at hrest
                    obtain ⟨rfl, rfl⟩ : step = st ∧ ([] : List PathStep) = suf :=
                      by exact ⟨(List.cons.injEq _ _ _ _ ▸ hrest).1,
                        (List.cons.injEq _ _ _ _ ▸ hrest).2⟩
                    simp only [List.append_nil] at hpre
                    subst hpre
                    rcases hprereq with h | h
                    · simp [hstep, h]
                    · rw [← h3]; exact h
                | cons x xs =>
                    exfalso
                    have := congrArg List.length hrest
                    simp at this
              · cases c₁ with
                | nil =>
                    simp only [List.append_nil] at hpath
                    simp only [List.nil_append] at hrest
                    obtain ⟨rfl, rfl⟩ : st = step ∧ suf = ([] : List PathStep) :=
                      ⟨(List.cons.injEq _ _ _ _ ▸ hrest).1,
                        (List.cons.injEq _ _ _ _ ▸ hrest).2⟩
                    subst hpath
                    rcases hprereq with h | h
                    · simp [hstep, h]
                    · rw [← h3]; exact h
                | cons x xs =>
                    have hst : st = x ∧ suf = xs ++ [step] :=
                      ⟨(List.cons.injEq _ _ _ _ ▸ hrest).1,
                        (List.cons.injEq _ _ _ _ ▸ hrest).2⟩
                    rcases hst with ⟨rfl, rfl⟩
                    exact h4 pre st xs hpath
            · rw [List.map_append, h5, List.length_append]
              simp [hstep, List.range'_concat, Nat.add_comm]

/-! ## Claim theorems -/

/-- C1.  For every course scored by the course scorer, the returned
total score equals the sum of the five sub-scores (skill match, difficulty
match, goal alignment, popularity, prerequisite readiness), and
`0 ≤ total_score ≤ 100`, for all learner contexts, goal sets and course
descriptors. -/
theorem total_score_is_sum_and_bounded (course : Course) (ctx : UserContext) :
    let s := calculateRecommendationScore course ctx
    s.total = s.skill_match + s.difficulty_match + s.goal_alignment
        + s.popularity + s.prerequisite_ready
      ∧ 0 ≤ s.total ∧ s.total ≤ 100 := by
  refine ⟨rfl, ?_, ?_⟩
  · have := skillMatchScore_nonneg course ctx
    have := difficultyMatchScore_nonneg course ctx
    have := goalAlignmentScore_nonneg course ctx
    have := popularityScore_nonneg course
    have := prerequisiteReadyScore_nonneg course ctx
    show (0:ℚ) ≤ skillMatchScore course ctx + difficultyMatchScore course ctx
      + goalAlignmentScore course ctx + popularityScore course
      + prerequisiteReadyScore course ctx
    linarith
  · have := skillMatchScore_le course ctx
    have := difficultyMatchScore_le course ctx
    have := goalAlignmentScore_le course ctx
    have := popularityScore_le course
    have := prerequisiteReadyScore_le course ctx
    show skillMatchScore course ctx + difficultyMatchScore course ctx
      + goalAlignmentScore course ctx + popularityScore course
      + prerequisiteReadyScore course ctx ≤ 100
    linarith

/-- C2, counterexample to the claim as stated.  Two candidate courses tie
for the highest local score (both teach exactly the one gap skill with
equal durations), the course with id 2 comes first in the catalog, and the
planner picks id 2 — not the smallest id 1.  The scan keeps the incumbent
on ties (`score > best_score` is strict), so catalog order decides. -/
theorem greedy_tie_goes_to_catalog_order_not_smallest_id :
    (generateLearningPath ∅ {"x"} (some 5)
        [⟨2, "B", "", "BEGINNER", {"x"}, ∅, 4, 0⟩,
         ⟨1, "A", "", "BEGINNER", {"x"}, ∅, 4, 0⟩]).steps.map (fun st => st.course.id)
      = [2]
    ∧ localScore {"x"} ⟨1, "A", "", "BEGINNER", {"x"}, ∅, 4, 0⟩
        = localScore {"x"} ⟨2, "B", "", "BEGINNER", {"x"}, ∅, 4, 0⟩ := by
  constructor
  · norm_num [generateLearningPath, buildPath, selectCourse, selectGo, eligible,
      localScore, effectiveStudyHours]
  · norm_num [localScore]

/-- C2 (amended).  In every iteration of the path planner's greedy loop,
among the eligible candidates the pick is the **first in catalog order**
whose local score is strictly positive and strictly exceeds every earlier
eligible candidate's and is not exceeded by any later one; ties are broken
by catalog position, not by course id. -/
theorem greedy_pick_is_first_maximal_candidate
    (allCourses picked : List Course) (learned gaps : Finset String) (c : Course)
    (h : selectCourse allCourses picked learned gaps = some c) :
    ∃ l₁ l₂, allCourses = l₁ ++ c :: l₂ ∧ eligible picked learned c ∧
      0 < localScore gaps c ∧
      (∀ d ∈ l₁, eligible picked learned d → localScore gaps d < localScore gaps c) ∧
      (∀ d ∈ l₂, eligible picked learned d → localScore gaps d ≤ localScore gaps c) :=
  selectCourse_spec h

/-- Witness for the amended C2 at a concrete tied catalog. -/
theorem greedy_pick_is_first_maximal_candidate_witness :
    ∃ l₁ l₂,
      ([⟨2, "B", "", "BEGINNER", {"x"}, ∅, 4, 0⟩,
        ⟨1, "A", "", "BEGINNER", {"x"}, ∅, 4, 0⟩] : List Course)
        = l₁ ++ (⟨2, "B", "", "BEGINNER", {"x"}, ∅, 4, 0⟩ : Course) :: l₂ ∧
      eligible [] ∅ ⟨2, "B", "", "BEGINNER", {"x"}, ∅, 4, 0⟩ ∧
      0 < localScore {"x"} ⟨2, "B", "", "BEGINNER", {"x"}, ∅, 4, 0⟩ ∧
      (∀ d ∈ l₁, eligible [] ∅ d →
        localScore {"x"} d < localScore {"x"} ⟨2, "B", "", "BEGINNER", {"x"}, ∅, 4, 0⟩) ∧
      (∀ d ∈ l₂, eligible [] ∅ d →
        localScore {"x"} d ≤ localScore {"x"} ⟨2, "B", "", "BEGINNER", {"x"}, ∅, 4, 0⟩) :=
  greedy_pick_is_first_maximal_candidate _ _ _ _ _
    (by norm_num [selectCourse, selectGo, eligible, localScore])

/-- C3, counterexample to the claim as stated.  With
`study_hours_per_week = 0` the pace computation substitutes **5**, not 1:
for a single chosen course of 7 hours the code returns
`estimated_weeks = ceil(7/5) = 2`, while the claimed formula
`ceil(total_hours / 1)` gives 7. -/
theorem pace_fallback_is_five_not_one :
    (generateLearningPath ∅ {"x"} (some 0)
        [⟨1, "A", "", "BEGINNER", {"x"}, ∅, 7, 0⟩]).estimated_weeks = 2
    ∧ (generateLearningPath ∅ {"x"} (some 0)
        [⟨1, "A", "", "BEGINNER", {"x"}, ∅, 7, 0⟩]).total_hours = 7
    ∧ (2 : ℤ) ≠ ⌈(7 : ℚ) / 1⌉ := by
  refine ⟨?_, ?_, by norm_num⟩
  · norm_num [generateLearningPath, buildPath, selectCourse, selectGo, eligible,
      localScore, effectiveStudyHours, Int.ceil_eq_iff]
  · norm_num [generateLearningPath, buildPath, selectCourse, selectGo, eligible,
      localScore, effectiveStudyHours]

/-- C3 (amended).  When `study_hours_per_week` is `NULL` or `0`, the path
planner substitutes **5** (`or 5`) and returns the finite
`estimated_weeks = ceil(total_hours / 5)`; the engine variant in
`recommendation_engine.py` substitutes **10**.  When it is negative, the
`> 0` guard yields `estimated_weeks = 0`.  In all cases the computation is
total: no division by zero is possible. -/
theorem pace_division_guard (cur target : Finset String) (cat : List Course)
    (sh : Option ℤ) (total : ℚ) :
    (sh = none ∨ sh = some 0 →
      (generateLearningPath cur target sh cat).study_hours_per_week = 5 ∧
      (generateLearningPath cur target sh cat).estimated_weeks
        = ⌈(generateLearningPath cur target sh cat).total_hours / 5⌉ ∧
      engineEstimatedWeeks total sh = ⌈total / 10⌉) ∧
    (∀ n : ℤ, n < 0 → sh = some n →
      (generateLearningPath cur target sh cat).estimated_weeks = 0) := by
  constructor
  · rintro (rfl | rfl) <;>
      simp [generateLearningPath, effectiveStudyHours, engineEstimatedWeeks,
        engineStudyHours]
  · rintro n hn rfl
    have hnz : n ≠ 0 := by omega
    have h5 : effectiveStudyHours (some n) = n := by
      simp [effectiveStudyHours, hnz]
    have hng : ¬ (0 : ℤ) < n := by omega
    simp [generateLearningPath, h5, hng]

/-- Witness for the amended C3 with an absent `study_hours_per_week`. -/
theorem pace_division_guard_witness :
    (generateLearningPath ∅ ∅ none []).study_hours_per_week = 5 ∧
    (generateLearningPath ∅ ∅ none []).estimated_weeks
      = ⌈(generateLearningPath ∅ ∅ none []).total_hours / 5⌉ ∧
    engineEstimatedWeeks 0 none = ⌈(0 : ℚ) / 10⌉ :=
  (pace_division_guard ∅ ∅ [] none 0).1 (Or.inl rfl)

/-- C4.  For every learning path the planner generates from a catalog with
distinct course ids: no course id appears twice; every step's prerequisites
are contained in the learner's initial skills united with the skills taught
by strictly earlier steps; and the sequence numbers are `1, 2, …`
contiguously. -/
theorem generated_path_invariants (cur target : Finset String) (sh : Option ℤ)
    (cat : List Course) (hids : (cat.map (·.id)).Nodup) :
    ((generateLearningPath cur target sh cat).steps.map
        (fun st => st.course.id)).Nodup ∧
    (∀ pre st suf, (generateLearningPath cur target sh cat).steps = pre ++ st :: suf →
        st.course.prerequisites ⊆ learnedAfter cur pre) ∧
    (generateLearningPath cur target sh cat).steps.map (·.sequence)
      = List.range' 1 (generateLearningPath cur target sh cat).steps.length := by
  have hsteps : (generateLearningPath cur target sh cat).steps
      = (buildPath cat target 20 [] cur (target \ cur)).1 := rfl
  have hinv := buildPath_invariant cat target cur 20 [] cur (target \ cur)
    (by simp) (by simp) (by simp [learnedAfter])
    (by intro pre st suf h; exact absurd h.symm (List.append_ne_nil_of_right_ne_nil pre (by simp)))
    (by simp)
  obtain ⟨hnodup, hmem, hprereq, hseq⟩ := hinv
  rw [hsteps]
  refine ⟨?_, hprereq, hseq⟩
  have hmapeq : (buildPath cat target 20 [] cur (target \ cur)).1.map
      (fun st => st.course.id)
      = ((buildPath cat target 20 [] cur (target \ cur)).1.map (·.course)).map (·.id) := by
    simp [List.map_map]
  rw [hmapeq]
  apply List.Nodup.map_on ?_ hnodup
  intro x hx y hy hxy
  have hxcat : x ∈ cat := by
    rcases List.mem_map.mp hx with ⟨st, hst, rfl⟩
    exact hmem st hst
  have hycat : y ∈ cat := by
    rcases List.mem_map.mp hy with ⟨st, hst, rfl⟩
    exact hmem st hst
  exact List.inj_on_of_nodup_map hids hxcat hycat hxy

/-- Witness for C4 on a one-course catalog. -/
theorem generated_path_invariants_witness :
    ((generateLearningPath ∅ {"x"} (some 5)
        [⟨1, "A", "", "BEGINNER", {"x"}, ∅, 4, 0⟩]).steps.map
          (fun st => st.course.id)).Nodup :=
  (generated_path_invariants ∅ {"x"} (some 5)
    [⟨1, "A", "", "BEGINNER", {"x"}, ∅, 4, 0⟩] (by simp)).1

/-- Every gap built by `buildGap` has priority rank 0, 1 or 2. -/
lemma buildGap_rank_le (cs : List (String × ℚ)) (s : String) :
    priorityRank (buildGap cs s) ≤ 2 := by
  unfold buildGap priorityRank
  dsimp only
  split_ifs <;> simp_all

lemma mem_filter_rank {l : List SkillGap} {g : SkillGap} {k : ℕ}
    (h : g ∈ l.filter (fun g => priorityRank g = k)) : priorityRank g = k := by
  have := (List.mem_filter.mp h).2
  exact of_decide_eq_true this

/-- The three-bucket concatenation is sorted by priority rank. -/
lemma sortGapsStable_sorted (l : List SkillGap) :
    (sortGapsStable l).Pairwise (fun g h => priorityRank g ≤ priorityRank h) := by
  unfold sortGapsStable
  rw [List.pairwise_append]
  refine ⟨?_, ?_, ?_⟩
  · rw [List.pairwise_append]
    refine ⟨?_, ?_, ?_⟩
    · exact List.pairwise_of_forall_mem_list (fun a ha b hb => by
        rw [mem_filter_rank ha, mem_filter_rank hb])
    · exact List.pairwise_of_forall_mem_list (fun a ha b hb => by
        rw [mem_filter_rank ha, mem_filter_rank hb])
    · intro a ha b hb
      rw [mem_filter_rank ha, mem_filter_rank hb]
      norm_num
  · exact List.pairwise_of_forall_mem_list (fun a ha b hb => by
      rw [mem_filter_rank ha, mem_filter_rank hb])
  · intro a ha b hb
    rw [mem_filter_rank hb]
    rcases List.mem_append.mp ha with h | h
    · rw [mem_filter_rank h]; norm_num
    · rw [mem_filter_rank h]; norm_num

/-- Double rank filters with distinct ranks are empty. -/
lemma filter_rank_pair (l : List SkillGap) (k j : ℕ) (hne : k ≠ j) :
    l.filter (fun g => decide (priorityRank g = k) && decide (priorityRank g = j))
      = [] := by
  refine List.filter_eq_nil_iff.mpr (fun g _ => ?_)
  simp only [Bool.and_eq_true, decide_eq_true_eq, not_and]
  omega

/-- A repeated rank filter collapses. -/
lemma filter_rank_self (l : List SkillGap) (k : ℕ) :
    l.filter (fun g => decide (priorityRank g = k) && decide (priorityRank g = k))
      = l.filter (fun g => priorityRank g = k) := by
  refine List.filter_congr (fun a _ => ?_)
  simp [Bool.and_self]

/-- Stability: the equal-rank subsequences of the sorted output are the
equal-rank subsequences of the input, in input order. -/
lemma sortGapsStable_stable (l : List SkillGap)
    (hl : ∀ g ∈ l, priorityRank g ≤ 2) (k : ℕ) :
    (sortGapsStable l).filter (fun g => priorityRank g = k)
      = l.filter (fun g => priorityRank g = k) := by
  unfold sortGapsStable
  rw [List.filter_append, List.filter_append, List.filter_filter,
    List.filter_filter, List.filter_filter]
  by_cases h0 : k = 0
  · subst h0
    rw [filter_rank_self, filter_rank_pair l 0 1 (by omega),
      filter_rank_pair l 0 2 (by omega)]
    simp
  · by_cases h1 : k = 1
    · subst h1
      rw [filter_rank_self, filter_rank_pair l 1 0 (by omega),
        filter_rank_pair l 1 2 (by omega)]
      simp
    · by_cases h2 : k = 2
      · subst h2
        rw [filter_rank_self, filter_rank_pair l 2 0 (by omega),
          filter_rank_pair l 2 1 (by omega)]
        simp
      · rw [filter_rank_pair l k 0 h0, filter_rank_pair l k 1 h1,
          filter_rank_pair l k 2 h2]
        symm
        simp only [List.append_nil]
        refine List.filter_eq_nil_iff.mpr (fun g hg => ?_)
        have := hl g hg
        simp only [decide_eq_true_eq]
        omega

/-- The sorted output is a permutation of the unsorted gap list, provided
every rank is 0, 1 or 2 (always true for constructed gaps). -/
lemma sortGapsStable_perm (l : List SkillGap)
    (hl : ∀ g ∈ l, priorityRank g ≤ 2) : (sortGapsStable l).Perm l := by
  induction l with
  | nil => simp [sortGapsStable]
  | cons x rest ih =>
      have hx := hl x (List.mem_cons_self x rest)
      have hrest : ∀ g ∈ rest, priorityRank g ≤ 2 :=
        fun g hg => hl g (List.mem_cons_of_mem x hg)
      have hperm := ih hrest
      have hcase : priorityRank x = 0 ∨ priorityRank x = 1 ∨ priorityRank x = 2 := by
        omega
      rcases hcase with h | h | h
      · have heq : sortGapsStable (x :: rest) = x :: sortGapsStable rest := by
          unfold sortGapsStable
          simp [List.filter_cons, h]
        rw [heq]
        exact hperm.cons x
      · have heq : sortGapsStable (x :: rest)
            = rest.filter (fun g => priorityRank g = 0)
              ++ x :: (rest.filter (fun g => priorityRank g = 1)
                ++ rest.filter (fun g => priorityRank g = 2)) := by
          unfold sortGapsStable
          simp [List.filter_cons, h]
        rw [heq]
        refine List.Perm.trans List.perm_middle ?_
        refine List.Perm.cons x ?_
        simpa [sortGapsStable, List.append_assoc] using hperm
      · have heq : sortGapsStable (x :: rest)
            = (rest.filter (fun g => priorityRank g = 0)
              ++ rest.filter (fun g => priorityRank g = 1)) ++ x ::
                rest.filter (fun g => priorityRank g = 2) := by
          unfold sortGapsStable
          simp [List.filter_cons, h]
        rw [heq]
        refine List.Perm.trans List.perm_middle ?_
        refine List.Perm.cons x ?_
        simpa [sortGapsStable, List.append_assoc] using hperm

/-- C5, counterexample to the claim as stated.  With two target skills
iterated in the order `["b", "a"]`, both at level 0 (priority `high`), the
report keeps them in iteration order `["b", "a"]` — `sorted` is given only
the priority rank as key, so equal-priority gaps are **not** re-ordered by
skill name. -/
theorem gap_sort_has_no_lexicographic_tie_break :
    (analyzeSkillGaps [] ["b", "a"]).map (·.skill) = ["b", "a"]
    ∧ ¬ gapsSortedAsSpecified (analyzeSkillGaps [] ["b", "a"]) := by
  have hev : analyzeSkillGaps [] ["b", "a"]
      = [⟨"b", 0, "large", "high"⟩, ⟨"a", 0, "large", "high"⟩] := by
    norm_num [analyzeSkillGaps, sortGapsStable, buildGap, priorityRank, dictGetD, dictGet]
  rw [hev]
  refine ⟨by norm_num, ?_⟩
  intro h
  rcases List.pairwise_cons.mp h with ⟨hab, -⟩
  rcases hab _ (List.mem_singleton.mpr rfl) with h1 | ⟨-, h2⟩
  · simp [priorityRank] at h1
  · refine h2 ?_
    show ("a" : String) < "b"
    rw [String.lt_iff_toList_lt]
    decide

/-- C5 (amended).  The skill-gap analyzer returns the gap records sorted
ascending by priority rank (high=0, medium=1, low=2); ties among equal
priorities keep the iteration order of the aggregated target-skill set
(the sort is stable), with no lexicographic tie-break; the output is a
permutation of one gap record per target skill. -/
theorem gap_report_sorted_by_rank_stably (cs : List (String × ℚ))
    (ts : List String) :
    (analyzeSkillGaps cs ts).Pairwise
        (fun g h => priorityRank g ≤ priorityRank h)
    ∧ (∀ k, (analyzeSkillGaps cs ts).filter (fun g => priorityRank g = k)
        = (ts.map (buildGap cs)).filter (fun g => priorityRank g = k))
    ∧ (analyzeSkillGaps cs ts).Perm (ts.map (buildGap cs)) := by
  have hranks : ∀ g ∈ ts.map (buildGap cs), priorityRank g ≤ 2 := by
    intro g hg
    rcases List.mem_map.mp hg with ⟨s, -, rfl⟩
    exact buildGap_rank_le cs s
  exact ⟨sortGapsStable_sorted _,
    fun k => sortGapsStable_stable _ hranks k,
    sortGapsStable_perm _ hranks⟩

/-- The weighted sum over `enumFrom` as a `Finset.range` sum. -/
lemma enumFrom_map_sum (f : ℕ → ℚ → ℚ) :
    ∀ (l : List ℚ) (n : ℕ),
      ((List.enumFrom n l).map (fun p => f p.1 p.2)).sum
        = ∑ i in Finset.range l.length, f (n + i) (l.getD i 0) := by
  intro l
  induction l with
  | nil => intro n; simp
  | cons a rest ih =>
      intro n
      rw [List.enumFrom_cons, List.map_cons, List.sum_cons, ih (n + 1),
        List.length_cons, Finset.sum_range_succ']
      simp only [List.getD_cons_succ, List.getD_cons_zero, Nat.add_zero]
      rw [add_comm]
      congr 1
      refine Finset.sum_congr rfl (fun i _ => ?_)
      rw [Nat.add_assoc, Nat.add_comm 1 i]

/-- C6.  The skill-profile estimator weights the `i`-th most recent
accuracy sample (0-indexed) by `1/(i+1)` and returns
`round(weighted_average * 10, 1)`; in particular the history
`[0.9, 0.4]` (most recent first) yields skill level 7.3. -/
theorem skill_from_history_harmonic_weights (l : List ℚ) (h : l ≠ []) :
    calculateSkillFromHistory l
      = some (pyRound1
          ((∑ i in Finset.range l.length, l.getD i 0 * (1 / ((i : ℚ) + 1)))
            / (∑ i in Finset.range l.length, (1 : ℚ) / ((i : ℚ) + 1)) * 10))
    ∧ calculateSkillFromHistory [9/10, 4/10] = some (73/10) := by
  constructor
  · unfold calculateSkillFromHistory
    rw [if_neg h]
    have h1 := enumFrom_map_sum (fun i x => x * (1 / ((i : ℚ) + 1))) l 0
    have h2 := enumFrom_map_sum (fun i _ => (1 : ℚ) / ((i : ℚ) + 1)) l 0
    simp only [Nat.zero_add] at h1 h2
    rw [show l.enum = l.enumFrom 0 from rfl, h1, h2]
  · norm_num [calculateSkillFromHistory, pyRound1, roundHalfEven, List.enum]
    simp

/-- Witness for C6 at the spec's scenario history. -/
theorem skill_from_history_witness :
    calculateSkillFromHistory [9/10, 4/10] = some (73/10) :=
  (skill_from_history_harmonic_weights [9/10, 4/10] (by simp)).2

/-- `random.choice` picks an element of its (non-empty) list, whatever the
draw. -/
lemma randChoice_mem (r : ℕ) {l : List Question} (h : l ≠ []) :
    randChoice r l ∈ l := by
  unfold randChoice
  have hlen : 0 < l.length := List.length_pos.mpr h
  have hlt : r % l.length < l.length := Nat.mod_lt _ hlen
  rw [List.getD_eq_getElem _ _ hlt]
  exact List.getElem_mem hlt

lemma mem_filter_difficulty {l : List Question} {q : Question} {d : String}
    (h : q ∈ l.filter (fun q => q.difficulty_level = d)) :
    q ∈ l ∧ q.difficulty_level = d :=
  ⟨(List.mem_filter.mp h).1, of_decide_eq_true (List.mem_filter.mp h).2⟩

/-- C7.  For every non-empty answer history: the targeted tier is HARD when
accuracy ≥ 0.8, MEDIUM when 0.5 ≤ accuracy < 0.8, EASY when
accuracy < 0.5; when an unanswered question of the target tier exists the
selector returns one at that tier (for any random draw); when none exists
it falls back to the first unanswered question in catalog order; and when
no unanswered question remains it returns `none` (assessment complete), not
an error. -/
theorem adaptive_selector_tier_and_fallbacks (qs : List Question)
    (prev : List AnswerRec) (r : ℕ) (hprev : prev ≠ []) :
    (8/10 ≤ rollingAccuracy prev →
        targetDifficulty (rollingAccuracy prev) = "HARD")
    ∧ (1/2 ≤ rollingAccuracy prev → rollingAccuracy prev < 8/10 →
        targetDifficulty (rollingAccuracy prev) = "MEDIUM")
    ∧ (rollingAccuracy prev < 1/2 →
        targetDifficulty (rollingAccuracy prev) = "EASY")
    ∧ ((∃ q ∈ unansweredOf qs prev,
          q.difficulty_level = targetDifficulty (rollingAccuracy prev)) →
        ∃ q, getNextQuestion qs prev r = some q ∧ q ∈ unansweredOf qs prev ∧
          q.difficulty_level = targetDifficulty (rollingAccuracy prev))
    ∧ ((∀ q ∈ unansweredOf qs prev,
          q.difficulty_level ≠ targetDifficulty (rollingAccuracy prev)) →
        getNextQuestion qs prev r = (unansweredOf qs prev).head?)
    ∧ (unansweredOf qs prev = [] → getNextQuestion qs prev r = none) := by
  refine ⟨?_, ?_, ?_, ?_, ?_, ?_⟩
  · intro h
    unfold targetDifficulty
    rw [if_pos h]
  · intro h1 h2
    unfold targetDifficulty
    rw [if_neg (not_le.mpr h2), if_pos h1]
  · intro h
    have h8 : ¬ (8/10 : ℚ) ≤ rollingAccuracy prev :=
      not_le.mpr (lt_trans h (by norm_num))
    unfold targetDifficulty
    rw [if_neg h8, if_neg (not_le.mpr h)]
  · rintro ⟨q, hqmem, hqdiff⟩
    have hqs : qs ≠ [] := by
      intro h
      rw [h] at hqmem
      simp [unansweredOf] at hqmem
    have hun : unansweredOf qs prev ≠ [] := by
      intro h
      rw [h] at hqmem
      exact absurd hqmem (List.not_mem_nil q)
    have hmatch : (unansweredOf qs prev).filter
        (fun q => q.difficulty_level = targetDifficulty (rollingAccuracy prev)) ≠ [] := by
      intro h
      have := List.filter_eq_nil_iff.mp h q hqmem
      simp [hqdiff] at this
    have heq : getNextQuestion qs prev r
        = some (randChoice r ((unansweredOf qs prev).filter
            (fun q => q.difficulty_level = targetDifficulty (rollingAccuracy prev)))) := by
      unfold getNextQuestion
      rw [if_neg hqs, if_neg hprev, if_neg hun, if_pos hmatch]
    have hmem := randChoice_mem r hmatch
    obtain ⟨h1, h2⟩ := mem_filter_difficulty hmem
    exact ⟨_, heq, h1, h2⟩
  · intro hall
    by_cases hqs : qs = []
    · have : unansweredOf qs prev = [] := by simp [unansweredOf, hqs]
      unfold getNextQuestion
      rw [if_pos hqs, this]
      rfl
    · by_cases hun : unansweredOf qs prev = []
      · unfold getNextQuestion
        rw [if_neg hqs, if_neg hprev, if_pos hun, hun]
        rfl
      · have hmatch : (unansweredOf qs prev).filter
            (fun q => q.difficulty_level
              = targetDifficulty (rollingAccuracy prev)) = [] := by
          refine List.filter_eq_nil_iff.mpr (fun q hq => ?_)
          simpa using hall q hq
        unfold getNextQuestion
        rw [if_neg hqs, if_neg hprev, if_neg hun, if_neg (by simp [hmatch])]
  · intro hemp
    by_cases hqs : qs = []
    · unfold getNextQuestion
      rw [if_pos hqs]
    · unfold getNextQuestion
      rw [if_neg hqs, if_neg hprev, if_pos hemp]

/-- Witness for C7: perfect accuracy with a HARD question available yields
a HARD pick. -/
theorem adaptive_selector_witness :
    ∃ q, getNextQuestion [⟨1, "HARD", none⟩] [⟨2, true⟩] 0 = some q ∧
      q ∈ unansweredOf [⟨1, "HARD", none⟩] [⟨2, true⟩] ∧
      q.difficulty_level = targetDifficulty (rollingAccuracy [⟨2, true⟩]) :=
  (adaptive_selector_tier_and_fallbacks [⟨1, "HARD", none⟩] [⟨2, true⟩] 0
      (by simp)).2.2.2.1
    ⟨⟨1, "HARD", none⟩, by simp +decide [unansweredOf],
      by norm_num [targetDifficulty, rollingAccuracy]⟩

lemma pyRound2_zero : pyRound2 0 = 0 := by
  norm_num [pyRound2, roundHalfEven]

/-- The accumulation loop of `calculate_adaptive_score` computes the two
weighted sums, for any starting accumulator. -/
lemma adaptivePointsLoop_spec (questions : List Question) :
    ∀ (answers : List AnswerRec) (a b : ℚ),
      answers.foldl
        (fun acc ans =>
          match questionById questions ans.question_id with
          | none => acc
          | some q =>
              let weighted := (basePoints q : ℚ) * difficultyMultiplier q.difficulty_level
              (acc.1 + (if ans.is_correct then weighted else 0), acc.2 + weighted))
        (a, b)
      = (a + (answers.map (fun ans =>
            if ans.is_correct then answerWeight questions ans else 0)).sum,
         b + (answers.map (answerWeight questions)).sum) := by
  intro answers
  induction answers with
  | nil => intro a b; simp
  | cons x rest ih =>
      intro a b
      rw [List.foldl_cons, List.map_cons, List.map_cons, List.sum_cons, List.sum_cons]
      cases hq : questionById questions x.question_id with
      | none =>
          simp only [hq]
          rw [ih]
          simp only [answerWeight, hq]
          refine Prod.ext ?_ ?_ <;> simp
      | some q =>
          simp only [hq]
          rw [ih]
          simp only [answerWeight, hq]
          refine Prod.ext ?_ ?_ <;> simp <;> ring

/-- `adaptivePointsLoop` as a pair of weighted sums. -/
lemma adaptivePointsLoop_eq (questions : List Question) (answers : List AnswerRec) :
    adaptivePointsLoop questions answers
      = ((answers.map (fun ans =>
            if ans.is_correct then answerWeight questions ans else 0)).sum,
         (answers.map (answerWeight questions)).sum) := by
  unfold adaptivePointsLoop
  rw [adaptivePointsLoop_spec]
  simp

/-- C8, counterexample to the claim as stated.  For a question stored with
`points = 0` the code substitutes `points or 10`, so a single correct
answer scores 100%, while the claim's formula (raw stored points) would
make `points_possible = 0` and hence percentage 0. -/
theorem adaptive_score_zero_points_defaults_to_ten :
    (calculateAdaptiveScore [⟨1, true⟩] [⟨1, "HARD", some 0⟩]).percentage = 100
    ∧ specAdaptivePercentage [⟨1, true⟩] [⟨1, "HARD", some 0⟩] = 0 := by
  constructor
  · simp +decide [calculateAdaptiveScore, adaptivePointsLoop, questionById, basePoints,
      difficultyMultiplier, List.find?]
    norm_num [pyRound2, roundHalfEven]
  · simp +decide [specAdaptivePercentage, questionById, difficultyMultiplier, List.find?]

/-- C8 (amended).  `calculate_adaptive_score` multiplies each answered
question's points — with missing or zero stored points defaulting to 10 —
by the difficulty weight (EASY=1.0, MEDIUM=1.5, HARD=2.0), sums the
weighted points of correct answers into `points_earned` and of all matched
answers into `points_possible`, and returns
`percentage = round(points_earned / points_possible * 100, 2)`, or 0 when
`points_possible == 0`: the division is guarded and no error is possible. -/
theorem adaptive_score_weighted_sums (answers : List AnswerRec)
    (questions : List Question) :
    calculateAdaptiveScore answers questions
      = ⟨⌊(answers.map (fun ans =>
            if ans.is_correct then answerWeight questions ans else 0)).sum⌋,
          ⌊(answers.map (answerWeight questions)).sum⌋,
          if 0 < (answers.map (answerWeight questions)).sum then
            pyRound2 ((answers.map (fun ans =>
                if ans.is_correct then answerWeight questions ans else 0)).sum
              / (answers.map (answerWeight questions)).sum * 100)
          else 0⟩
    ∧ ((answers.map (answerWeight questions)).sum = 0 →
        (calculateAdaptiveScore answers questions).percentage = 0) := by
  have hloop := adaptivePointsLoop_eq questions answers
  have hmain : calculateAdaptiveScore answers questions
      = ⟨⌊(answers.map (fun ans =>
            if ans.is_correct then answerWeight questions ans else 0)).sum⌋,
          ⌊(answers.map (answerWeight questions)).sum⌋,
          if 0 < (answers.map (answerWeight questions)).sum then
            pyRound2 ((answers.map (fun ans =>
                if ans.is_correct then answerWeight questions ans else 0)).sum
              / (answers.map (answerWeight questions)).sum * 100)
          else 0⟩ := by
    unfold calculateAdaptiveScore
    rw [hloop]
    dsimp only
    rw [apply_ite pyRound2, pyRound2_zero]
  refine ⟨hmain, fun hz => ?_⟩
  rw [hmain]
  simp [hz]

/-- Witness for the amended C8 at the empty answer list (the guarded
zero-denominator case). -/
theorem adaptive_score_weighted_sums_witness :
    (calculateAdaptiveScore [] []).percentage = 0 :=
  (adaptive_score_weighted_sums [] []).2 (by simp)

/-- C9, counterexample to the claim as stated.  `get_next_question` calls
`random.choice` among the unanswered questions at the target tier: with two
HARD questions available and accuracy 1, two different random draws return
two different questions on identical inputs, so the operation is not a
deterministic function of (history, catalog) alone. -/
theorem next_question_depends_on_random_draw :
    getNextQuestion [⟨1, "MEDIUM", some 10⟩, ⟨2, "HARD", some 10⟩,
        ⟨3, "HARD", some 10⟩] [⟨1, true⟩] 0
      ≠ getNextQuestion [⟨1, "MEDIUM", some 10⟩, ⟨2, "HARD", some 10⟩,
        ⟨3, "HARD", some 10⟩] [⟨1, true⟩] 1 := by
  norm_num [getNextQuestion, rollingAccuracy, targetDifficulty, unansweredOf, randChoice]
  decide

/-- C9 (amended).  The path planner, scorer, gap analyzer and skill
estimator are deterministic pure functions of their inputs (the embedding
takes no random source; equal inputs give equal outputs).  `next_question`
is the exception: it draws randomly among equally-eligible questions, and
only the difficulty tier of its pick — not the pick itself — is independent
of the draw. -/
theorem engine_determinism_modulo_random_draw (qs : List Question)
    (prev : List AnswerRec) (r r' : ℕ) :
    (getNextQuestion qs prev r).map (fun q => q.difficulty_level)
      = (getNextQuestion qs prev r').map (fun q => q.difficulty_level)
    ∧ (∀ (cur cur' target target' : Finset String) (sh sh' : Option ℤ)
        (cat cat' : List Course), cur = cur' → target = target' → sh = sh' →
        cat = cat' →
        generateLearningPath cur target sh cat
          = generateLearningPath cur' target' sh' cat') := by
  constructor
  · by_cases hqs : qs = []
    · simp [getNextQuestion, hqs]
    · by_cases hprev : prev = []
      · unfold getNextQuestion
        rw [if_neg hqs, if_neg hqs, if_pos hprev, if_pos hprev]
        by_cases hmed : qs.filter (fun q => q.difficulty_level = "MEDIUM") ≠ []
        · rw [if_pos hmed, if_pos hmed]
          have h1 := (mem_filter_difficulty (randChoice_mem r hmed)).2
          have h2 := (mem_filter_difficulty (randChoice_mem r' hmed)).2
          simp [h1, h2]
        · rw [if_neg hmed, if_neg hmed]
      · unfold getNextQuestion
        rw [if_neg hqs, if_neg hqs, if_neg hprev, if_neg hprev]
        by_cases hun : unansweredOf qs prev = []
        · rw [if_pos hun, if_pos hun]
        · rw [if_neg hun, if_neg hun]
          by_cases hmatch : (unansweredOf qs prev).filter
              (fun q => q.difficulty_level
                = targetDifficulty (rollingAccuracy prev)) ≠ []
          · rw [if_pos hmatch, if_pos hmatch]
            have h1 := (mem_filter_difficulty (randChoice_mem r hmatch)).2
            have h2 := (mem_filter_difficulty (randChoice_mem r' hmatch)).2
            simp [h1, h2]
          · rw [if_neg hmatch, if_neg hmatch]
  · intro cur cur' target target' sh sh' cat cat' h1 h2 h3 h4
    rw [h1, h2, h3, h4]

/-- Witness for the amended C9: tier equality across two draws, and path
determinism, at concrete inputs. -/
theorem engine_determinism_witness :
    (getNextQuestion [⟨1, "MEDIUM", some 10⟩] [] 0).map (fun q => q.difficulty_level)
      = (getNextQuestion [⟨1, "MEDIUM", some 10⟩] [] 1).map (fun q => q.difficulty_level)
    ∧ generateLearningPath ∅ ∅ none [] = generateLearningPath ∅ ∅ none [] :=
  ⟨(engine_determinism_modulo_random_draw [⟨1, "MEDIUM", some 10⟩] [] 0 1).1,
    (engine_determinism_modulo_random_draw [⟨1, "MEDIUM", some 10⟩] [] 0 1).2
      ∅ ∅ ∅ ∅ none none [] [] rfl rfl rfl rfl⟩

/-- Setting a key finds that key. -/
lemma dictGet_dictSet_self (d : List (String × ℚ)) (k : String) (v : ℚ) :
    dictGet (dictSet d k v) k = some v := by
  induction d with
  | nil => simp [dictSet, dictGet, List.find?]
  | cons p rest ih =>
      obtain ⟨k₀, v₀⟩ := p
      by_cases hk : k₀ = k
      · subst hk
        simp [dictSet, dictGet, List.find?]
      · simp only [dictSet, if_neg hk]
        rw [dictGet] at ih ⊢
        simp only [List.find?]
        rw [show (decide (k₀ = k)) = false from by simp [hk]]
        exact ih

/-- Setting a key leaves other keys unchanged. -/
lemma dictGet_dictSet_ne (d : List (String × ℚ)) (k : String) (v : ℚ)
    (s : String) (h : s ≠ k) : dictGet (dictSet d k v) s = dictGet d s := by
  induction d with
  | nil =>
      unfold dictSet dictGet
      rw [List.find?_cons_of_neg _ (by simp [Ne.symm h]), List.find?_nil]
  | cons p rest ih =>
      obtain ⟨k₀, v₀⟩ := p
      unfold dictSet
      by_cases hk : k₀ = k
      · rw [if_pos hk]
        unfold dictGet
        rw [List.find?_cons_of_neg _ (by simp [Ne.symm h]),
          List.find?_cons_of_neg _ (by simp [hk, Ne.symm h])]
      · rw [if_neg hk]
        by_cases hks : k₀ = s
        · unfold dictGet
          rw [List.find?_cons_of_pos _ (by simp [hks]),
            List.find?_cons_of_pos _ (by simp [hks])]
        · unfold dictGet at ih ⊢
          rw [List.find?_cons_of_neg _ (by simp [hks]),
            List.find?_cons_of_neg _ (by simp [hks])]
          exact ih

/-- Keys not updated keep their binding through the merge. -/
lemma mergeSkillLevels_get_of_not_key (updates : List (String × ℚ)) :
    ∀ (existing : List (String × ℚ)) (s : String),
      s ∉ updates.map (·.1) →
      dictGet (mergeSkillLevels existing updates) s = dictGet existing s := by
  induction updates with
  | nil => intro existing s _; rfl
  | cons p rest ih =>
      intro existing s hs
      have hs1 : s ≠ p.1 := by
        intro h
        exact hs (by simp [h])
      have hs2 : s ∉ rest.map (·.1) := by
        intro h
        exact hs (by simp [h])
      have hstep : mergeSkillLevels existing (p :: rest)
          = mergeSkillLevels (dictSet existing p.1 (max (dictGetD existing p.1) p.2))
              rest := rfl
      rw [hstep, ih _ s hs2, dictGet_dictSet_ne _ _ _ _ hs1]

/-- C10.  Merging newly computed skill levels into a stored profile sets
each updated skill to the maximum of the existing and the new value
(`existing[skill] = max(existing.get(skill, 0), level)`), so no stored
skill level ever decreases when a diagnostic assessment is processed. -/
theorem profile_merge_monotone (existing updates : List (String × ℚ)) :
    (∀ s, dictGetD existing s ≤ dictGetD (mergeSkillLevels existing updates) s)
    ∧ ((updates.map (·.1)).Nodup → ∀ s v, (s, v) ∈ updates →
        dictGet (mergeSkillLevels existing updates) s
          = some (max (dictGetD existing s) v)) := by
  constructor
  · intro s
    induction updates generalizing existing with
    | nil => exact le_refl _
    | cons p rest ih =>
        have hstep : mergeSkillLevels existing (p :: rest)
            = mergeSkillLevels
                (dictSet existing p.1 (max (dictGetD existing p.1) p.2)) rest := rfl
        rw [hstep]
        refine le_trans ?_ (ih _)
        by_cases hs : s = p.1
        · subst hs
          unfold dictGetD
          rw [dictGet_dictSet_self]
          simp only [Option.getD_some]
          exact le_max_left _ _
        · unfold dictGetD
          rw [dictGet_dictSet_ne _ _ _ _ hs]
  · induction updates generalizing existing with
    | nil =>
        intro _ s v hv
        exact absurd hv (List.not_mem_nil _)
    | cons p rest ih =>
        obtain ⟨k, w⟩ := p
        intro hnodup s v hv
        have hstep : mergeSkillLevels existing ((k, w) :: rest)
            = mergeSkillLevels
                (dictSet existing k (max (dictGetD existing k) w)) rest := rfl
        obtain ⟨hnomem, hnodup2⟩ :
            (∀ x : ℚ, (k, x) ∉ rest) ∧ (rest.map (·.1)).Nodup := by
          simpa using hnodup
        have hknotin : k ∉ rest.map (·.1) := by
          intro hmem
          rcases List.mem_map.mp hmem with ⟨⟨a, b⟩, hab, heq⟩
          exact hnomem b (by rwa [show a = k from heq] at hab)
        rw [hstep]
        rcases List.mem_cons.mp hv with hhead | htail
        · obtain ⟨rfl, rfl⟩ : s = k ∧ v = w :=
            ⟨congrArg Prod.fst hhead, congrArg Prod.snd hhead⟩
          rw [mergeSkillLevels_get_of_not_key rest _ s hknotin,
            dictGet_dictSet_self]
        · have hs_in : s ∈ rest.map (·.1) :=
            List.mem_map.mpr ⟨(s, v), htail, rfl⟩
          have hsk : s ≠ k := fun h => hknotin (h ▸ hs_in)
          rw [ih _ hnodup2 s v htail]
          unfold dictGetD
          rw [dictGet_dictSet_ne _ _ _ _ hsk]

/-- Witness for C10: merging `{"a": 5}` into `{"a": 3}` stores
`max(3, 5) = 5` and does not decrease the stored level. -/
theorem profile_merge_monotone_witness :
    dictGetD [("a", (3 : ℚ))] "a"
        ≤ dictGetD (mergeSkillLevels [("a", (3 : ℚ))] [("a", (5 : ℚ))]) "a"
    ∧ dictGet (mergeSkillLevels [("a", (3 : ℚ))] [("a", (5 : ℚ))]) "a"
        = some (max (dictGetD [("a", (3 : ℚ))] "a") 5) :=
  ⟨(profile_merge_monotone [("a", (3 : ℚ))] [("a", (5 : ℚ))]).1 "a",
    (profile_merge_monotone [("a", (3 : ℚ))] [("a", (5 : ℚ))]).2 (by simp)
      "a" 5 (List.mem_singleton.mpr rfl)⟩

end SkillStudio
